import Mathlib

/-!
Verification of the `Lakret/csp` repository against its specification.

The source under `src/native/csp_nif/src/` contains three Rust files:
- `csp.rs`: data types for a CSP (`Csp`, `Domain`, the four constraint
  structs) and a stub `backtrack` that returns an empty assignment;
- `lib.rs`: the NIF boundary with the connectivity function `add`;
- `bin.rs`: a `main` that echoes a line of input and constructs an example
  CSP without solving it.

The solver itself (construction-time validation, the propagator, the
search engine and the driver) is declared in the spec but left as TODO
stubs in the source, so those components are modelled here from the words
of the specification (sections 4.3 to 4.5 and 6); each such definition
carries a doc comment starting with `Modelled from the spec:`.
-/

namespace Csp

/-- Variables are string identifiers, as in `type Variable = String` of csp.rs. -/
abbrev Variable := String

/-- Domain trait of csp.rs: `pub trait Domain { type Value; }` associates a
value type to a domain representation. -/
class Domain (D : Type) where
  Value : Type

/-- Half-open range, mirroring `std::ops::Range` used for the domain impls
in csp.rs (`start..stop`). -/
structure Range (α : Type) where
  start : α
  stop : α

/-- The impl `Domain for Range<i32>` in csp.rs, with i32 values modelled as
integers. -/
instance : Domain (Range Int) where
  Value := Int

/-- The numeric value types appearing in the three `Domain` impl blocks of
csp.rs. -/
inductive NumTy where
  | i32
  | i64
  | f32
  | f64
  deriving DecidableEq

/-- The three `impl Domain for std::ops::Range<_>` blocks of csp.rs, keyed
by the representation type of the range. -/
inductive RangeImpl where
  | overI32
  | overF32
  | overF64
  deriving DecidableEq

/-- The associated `Value` type written in each of the three impl blocks of
csp.rs: `Range<i32> -> i32`, `Range<f32> -> i32`, `Range<f64> -> i64`. -/
def rangeValueTy : RangeImpl → NumTy
  | RangeImpl.overI32 => NumTy.i32
  | RangeImpl.overF32 => NumTy.i32
  | RangeImpl.overF64 => NumTy.i64

/-- Whether a numeric value type is an integer type. -/
def NumTy.isIntegerTy : NumTy → Bool
  | NumTy.i32 => true
  | NumTy.i64 => true
  | NumTy.f32 => false
  | NumTy.f64 => false

/-- The `Csp` struct of csp.rs: variables, a map from variable to domain
(`HashMap` modelled as an association list) and a list of constraints. The
Rust bound `C: Constraint<D::Value>` is an empty marker trait, so `C` stays
an arbitrary type parameter here. -/
structure Csp (D C : Type) [Domain D] where
  vars : List Variable
  domains : List (Variable × D)
  constraints : List C

/-- The type alias `Assignment<D> = HashMap<Variable, D::Value>` of csp.rs,
modelled as an association list. -/
abbrev Assignment (D : Type) [Domain D] := List (Variable × Domain.Value D)

/-- The `backtrack` function of csp.rs: its whole body is `HashMap::new()`,
so it returns the empty assignment for every input. -/
def backtrack {D C : Type} [Domain D] (csp : Csp D C) : Assignment D := []

/-- The `BinaryConstraint` tuple struct of csp.rs: a variable list and a
two-argument boolean predicate. -/
structure BinaryConstraint (Value : Type) where
  vars : List Variable
  pred : Value → Value → Bool

/-- The `UnaryConstraint` tuple struct of csp.rs. -/
structure UnaryConstraint (Value : Type) where
  vars : List Variable
  pred : Value → Bool

/-- The `EqualityConstraint` tuple struct of csp.rs. -/
structure EqualityConstraint (Value : Type) where
  vars : List Variable
  const : Value

/-- The `InequalityConstraint` tuple struct of csp.rs. -/
structure InequalityConstraint (Value : Type) where
  vars : List Variable
  const : Value

/-! The NIF boundary layer of lib.rs. -/

/-- A host-runtime term arriving at the NIF boundary: either an integer
term or something that does not decode as an integer. -/
inductive NifTerm where
  | int (n : Int)
  | nonInt
  deriving DecidableEq

/-- Decode failure of the rustler boundary (`Error::BadArg`). -/
inductive NifError where
  | badArg
  deriving DecidableEq

/-- The `:ok` atom declared in lib.rs. -/
inductive ElixirAtom where
  | ok
  deriving DecidableEq

/-- Smallest i64 value. -/
def i64Min : Int := -(2 ^ 63)

/-- Largest i64 value. -/
def i64Max : Int := 2 ^ 63 - 1

/-- Decoding a term as i64, as done by `args[i].decode::<i64>()?` in
lib.rs: succeeds exactly on integer terms in the i64 range. -/
def decodeI64 : NifTerm → Except NifError Int
  | NifTerm.int n =>
      if i64Min ≤ n ∧ n ≤ i64Max then Except.ok n else Except.error NifError.badArg
  | NifTerm.nonInt => Except.error NifError.badArg

/-- Wrapping two-complement i64 arithmetic: the value of a 64-bit signed
sum, with overflow taken modulo 2 ^ 64. -/
def i64Wrap (z : Int) : Int := (z + 2 ^ 63) % 2 ^ 64 - 2 ^ 63

/-- The `add` NIF of lib.rs: decode both arguments as i64 (propagating the
first decode error, as the two `?` operators do) and return the pair of
the `:ok` atom and the 64-bit sum. -/
def add (a b : NifTerm) : Except NifError (ElixirAtom × Int) :=
  match decodeI64 a with
  | Except.error e => Except.error e
  | Except.ok x =>
    match decodeI64 b with
    | Except.error e => Except.error e
    | Except.ok y => Except.ok (ElixirAtom.ok, i64Wrap (x + y))

/-! The binary entry point of bin.rs. -/

/-- Everything `main` of bin.rs produces from one line of input: the text
printed to standard output, the `Csp` value it constructs, and its return
value. No assignment and no solver result appear anywhere in it, and
`backtrack` is never applied. -/
structure MainEffects where
  printed : String
  csp : Csp (Range Int) (BinaryConstraint Int)
  result : Except String Unit

/-- The example CSP constructed by `main` in bin.rs: variables x and y,
both with domain `0..10`, and the single binary constraint `y == x * x`. -/
def exampleCspValue : Csp (Range Int) (BinaryConstraint Int) :=
  { vars := ["x", "y"]
  , domains := [("x", { start := 0, stop := 10 }), ("y", { start := 0, stop := 10 })]
  , constraints := [{ vars := ["x", "y"], pred := fun x y => y == x * x }] }

/-- The `main` function of bin.rs applied to the line read from standard
input: it prints the line with the `Input = ` prefix, constructs the
example CSP, and returns `Ok(())`. -/
def binMain (input : String) : MainEffects :=
  { printed := "Input = " ++ input ++ "\n"
  , csp :=
      { vars := ["x", "y"]
      , domains := [("x", { start := 0, stop := 10 }), ("y", { start := 0, stop := 10 })]
      , constraints := [{ vars := ["x", "y"], pred := fun x y => y == x * x }] }
  , result := Except.ok () }

/-! Spec-modelled solver core. The components below are declared by the
spec (sections 3, 4.3, 4.4, 4.5 and 6) but left as TODO stubs in csp.rs,
so they are modelled from the words of the specification. Values are
integers, the primary supported value type per spec section 3. -/

/-- Modelled from the spec: the Constraint tagged variant of section 3,
over {Unary(vars=[v], predicate), Binary(vars=[v1,v2], predicate),
Equality(vars=[v], constant), Inequality(vars=[v], constant)}. The missing
source counterpart is the unimplemented `Constraint` trait of csp.rs. -/
inductive Constraint where
  | unary (v : Variable) (p : Int → Bool)
  | binary (v1 v2 : Variable) (p : Int → Int → Bool)
  | equality (v : Variable) (c : Int)
  | inequality (v : Variable) (c : Int)

/-- Modelled from the spec: `scope()`, the set of variables a constraint
touches (section 4.2). -/
def Constraint.scope : Constraint → List Variable
  | Constraint.unary v _ => [v]
  | Constraint.binary v1 v2 _ => [v1, v2]
  | Constraint.equality v _ => [v]
  | Constraint.inequality v _ => [v]

/-- A domain state: one finite candidate list per variable, kept in the
deterministic order of the stored list (ascending for the ranges used
here). -/
abbrev DomainMap := List (Variable × List Int)

/-- First-match association lookup, the map semantics used for domain
states and assignments. -/
def lookupAssoc {α : Type} : List (Variable × α) → Variable → Option α
  | [], _ => none
  | (w, d) :: rest, v => if w = v then some d else lookupAssoc rest v

/-- The current candidate list of a variable (empty when the variable has
no entry). -/
def lookupDomain (ds : DomainMap) (v : Variable) : List Int :=
  (lookupAssoc ds v).getD []

/-- Replace the domain of `v` by `d`, leaving every other entry unchanged. -/
def setDomain (ds : DomainMap) (v : Variable) (d : List Int) : DomainMap :=
  ds.map (fun vd => (vd.1, if vd.1 = v then d else vd.2))

/-- Modelled from the spec: whether candidate value `x` of variable `v` has
support under constraint `c` given the current domains (section 4.3): a
unary, equality or inequality constraint on `v` must hold of `x`, and a
binary constraint on `v` must have a supporting value in the paired
variable. Constraints not touching `v` impose nothing. -/
def valueSupported (ds : DomainMap) (c : Constraint) (v : Variable) (x : Int) : Bool :=
  match c with
  | Constraint.unary w p => if w = v then p x else true
  | Constraint.binary w1 w2 p =>
      if w1 = v then (lookupDomain ds w2).any (fun y => p x y)
      else if w2 = v then (lookupDomain ds w1).any (fun y => p y x)
      else true
  | Constraint.equality w c0 => if w = v then decide (x = c0) else true
  | Constraint.inequality w c0 => if w = v then ! decide (x = c0) else true

/-- Whether value `x` of variable `v` has support under every constraint. -/
def supportedAll (cs : List Constraint) (ds : DomainMap) (v : Variable) (x : Int) : Bool :=
  cs.all (fun c => valueSupported ds c v x)

/-- Modelled from the spec: one simultaneous revision sweep of the
propagator — for every variable remove each candidate that lacks support
under some constraint (section 4.3). Iterating this sweep to a fixpoint
reaches the same arc-consistent domains as the worklist formulation. -/
def step (cs : List Constraint) (ds : DomainMap) : DomainMap :=
  ds.map (fun vd => (vd.1, vd.2.filter (fun x => supportedAll cs ds vd.1 x)))

/-- Total number of remaining candidate values, the termination measure of
propagation. -/
def totalSize (ds : DomainMap) : Nat :=
  (ds.map (fun vd => vd.2.length)).sum

/-- Revision sweeps repeated until a fixpoint, with enough fuel to reach
it (each productive sweep removes at least one value). -/
def propagateFuel (cs : List Constraint) : Nat → DomainMap → DomainMap
  | 0, ds => ds
  | n + 1, ds => if step cs ds = ds then ds else propagateFuel cs n (step cs ds)

/-- Modelled from the spec: the Propagator run to local fixpoint on the
current domain state (section 4.3). -/
def propagate (cs : List Constraint) (ds : DomainMap) : DomainMap :=
  propagateFuel cs (totalSize ds + 1) ds

/-- Whether some declared variable has an empty domain (the exhausted
classification of section 4.3). -/
def anyEmpty (decl : List Variable) (ds : DomainMap) : Bool :=
  decl.any (fun v => decide (lookupDomain ds v = []))

/-- Whether every declared variable has exactly one candidate left. -/
def allSingleton (decl : List Variable) (ds : DomainMap) : Bool :=
  decl.all (fun v => decide ((lookupDomain ds v).length = 1))

/-- The full assignment induced by all-singleton domains (section 4.4,
transition 1). -/
def inducedAssignment (decl : List Variable) (ds : DomainMap) : List (Variable × Int) :=
  decl.map (fun v => (v, (lookupDomain ds v).headD 0))

/-- Modelled from the spec: Minimum-Remaining-Values selection of the next
unassigned variable, ties broken by declaration order (section 4.4,
transition 2). -/
def selectMRV (unassigned : List Variable) (ds : DomainMap) : Option Variable :=
  match unassigned with
  | [] => none
  | v :: rest =>
      some (rest.foldl
        (fun best w =>
          if (lookupDomain ds w).length < (lookupDomain ds best).length then w else best)
        v)

/-- Modelled from the spec: the backtracking Search Engine of section 4.4.
Each level selects an unassigned variable by MRV, tries its candidates in
stored (ascending) order on a branch-local copy, propagates after the
tentative decision, discards the branch when a domain empties, and emits
the induced assignment once all domains are singleton. The fuel bounds the
depth; one unit is spent per assigned variable. -/
def searchAux (cs : List Constraint) (decl : List Variable) :
    Nat → List Variable → DomainMap → Option (List (Variable × Int))
  | 0, _, _ => none
  | n + 1, unassigned, ds =>
      if allSingleton decl ds then some (inducedAssignment decl ds)
      else
        match selectMRV unassigned ds with
        | none => none
        | some v =>
            (lookupDomain ds v).findSome? (fun val =>
              let ds2 := propagate cs (setDomain ds v [val])
              if anyEmpty decl ds2 then none
              else searchAux cs decl n (unassigned.erase v) ds2)

/-- Modelled from the spec: the Problem aggregate of section 3 — ordered
variable identifiers, a domain per variable, and the constraint list. The
missing source counterpart is the concrete solver state the `Csp` struct
of csp.rs sketches. -/
structure Problem where
  decls : List Variable
  domains : DomainMap
  constraints : List Constraint

/-- Modelled from the spec: the ConfigurationError of section 7 — a
constraint references an undeclared variable, or a declared variable lacks
a domain entry. -/
inductive ConfigurationError where
  | undeclaredVariable (v : Variable)
  | missingDomain (v : Variable)
  deriving DecidableEq

/-- Referential integrity of a problem declaration: every constraint scope
variable is declared and every declared variable has a domain entry
(section 3, Problem invariant). -/
def wellFormed (decl : List Variable) (doms : DomainMap) (cs : List Constraint) : Bool :=
  cs.all (fun c => c.scope.all (fun v => decide (v ∈ decl))) &&
    decl.all (fun v => (lookupAssoc doms v).isSome)

/-- First scope variable of some constraint that is not declared, if any. -/
def scopeViolation (decl : List Variable) (cs : List Constraint) : Option Variable :=
  cs.findSome? (fun c => c.scope.find? (fun v => ! decide (v ∈ decl)))

/-- First declared variable lacking a domain entry, if any. -/
def domainViolation (decl : List Variable) (doms : DomainMap) : Option Variable :=
  decl.find? (fun v => (lookupAssoc doms v).isNone)

/-- Modelled from the spec: `construct` of section 6 — validate referential
integrity at construction time, failing with a ConfigurationError, and
otherwise produce the Problem. -/
def construct (decl : List Variable) (doms : DomainMap) (cs : List Constraint) :
    Except ConfigurationError Problem :=
  match scopeViolation decl cs with
  | some v => Except.error (ConfigurationError.undeclaredVariable v)
  | none =>
      match domainViolation decl doms with
      | some v => Except.error (ConfigurationError.missingDomain v)
      | none => Except.ok { decls := decl, domains := doms, constraints := cs }

/-- Modelled from the spec: the SolverResult tagged outcome of section 3. -/
inductive SolverResult where
  | solved (a : List (Variable × Int))
  | reduced (p : Problem)
  | noSolution

/-- Modelled from the spec: the Solver Driver of section 4.5 — validate the
Problem invariants, run the Propagator to fixpoint, classify (any empty
domain is NoSolution before Search is ever invoked, all singleton is
Solved), and otherwise hand the reduced domains to the Search Engine,
mapping its terminal state to the SolverResult. -/
def solve (p : Problem) : Except ConfigurationError SolverResult :=
  match construct p.decls p.domains p.constraints with
  | Except.error e => Except.error e
  | Except.ok _ =>
      let ds := propagate p.constraints p.domains
      if anyEmpty p.decls ds then Except.ok SolverResult.noSolution
      else if allSingleton p.decls ds then
        Except.ok (SolverResult.solved (inducedAssignment p.decls ds))
      else
        match searchAux p.constraints p.decls (p.decls.length + 1) p.decls ds with
        | some a => Except.ok (SolverResult.solved a)
        | none => Except.ok SolverResult.noSolution

/-- Mirror of the control flow of `solve` recording whether the Search
Engine stage is reached for a given Problem. -/
def searchInvoked (p : Problem) : Bool :=
  match construct p.decls p.domains p.constraints with
  | Except.error _ => false
  | Except.ok _ =>
      let ds := propagate p.constraints p.domains
      if anyEmpty p.decls ds then false
      else if allSingleton p.decls ds then false
      else true

/-- Ascending integer list for a half-open range `lo..hi`, the value set of
the `0..10` domains of bin.rs. -/
def rangeDomain (lo hi : Int) : List Int :=
  (List.range (hi - lo).toNat).map (fun i => lo + (i : Int))

/-- The end-to-end example Problem of the spec (section 8): variables x and
y over `0..10` with the single binary constraint `y == x * x`. -/
def exampleProblem : Problem :=
  { decls := ["x", "y"]
  , domains := [("x", rangeDomain 0 10), ("y", rangeDomain 0 10)]
  , constraints := [Constraint.binary "x" "y" (fun x y => decide (y = x * x))] }

/-- Whether a solve outcome is the Reduced variant. -/
def resultIsReduced : Except ConfigurationError SolverResult → Bool
  | Except.ok (SolverResult.reduced _) => true
  | _ => false

/-- A constraint-free Problem with a two-candidate domain, used to evaluate
the no-constraint behaviour of `solve` at a concrete input. -/
def noConstraintProblem : Problem :=
  { decls := ["x"], domains := [("x", [0, 1])], constraints := [] }

/-- A second constraint-free Problem, used to instantiate the general
no-constraint theorem at a concrete input. -/
def noConstraintProblem2 : Problem :=
  { decls := ["z"], domains := [("z", [3, 4])], constraints := [] }

/-- A Problem carrying both an Equality and an Inequality constraint to the
same constant on a singleton domain. -/
def contradictionProblem : Problem :=
  { decls := ["v"]
  , domains := [("v", [5])]
  , constraints := [Constraint.equality "v" 5, Constraint.inequality "v" 5] }

/-- A Problem with an empty declared domain. -/
def emptyDomainProblem : Problem :=
  { decls := ["a"], domains := [("a", [])], constraints := [] }

/-! Helper lemmas about lookups, the revision sweep, and the propagation
fixpoint. -/

theorem lookupAssoc_mapVal (g : Variable → List Int → List Int) :
    ∀ (l : DomainMap) (v : Variable),
      lookupAssoc (l.map (fun vd => (vd.1, g vd.1 vd.2))) v = (lookupAssoc l v).map (g v) := by
  intro l
  induction l with
  | nil => intro v; rfl
  | cons hd tl ih =>
      intro v
      obtain ⟨w, d⟩ := hd
      by_cases hw : w = v
      · subst hw
        simp [lookupAssoc]
      · simp [lookupAssoc, hw, ih v]

theorem lookupAssoc_step (cs : List Constraint) (ds : DomainMap) (v : Variable) :
    lookupAssoc (step cs ds) v =
      (lookupAssoc ds v).map (fun d => d.filter (fun x => supportedAll cs ds v x)) :=
  lookupAssoc_mapVal (fun w d => d.filter (fun x => supportedAll cs ds w x)) ds v

theorem lookupAssoc_setDomain (ds : DomainMap) (v w : Variable) (d : List Int) :
    lookupAssoc (setDomain ds v d) w =
      (lookupAssoc ds w).map (fun b => if w = v then d else b) :=
  lookupAssoc_mapVal (fun u b => if u = v then d else b) ds w

theorem lookupDomain_setDomain_self (ds : DomainMap) (v : Variable) (d : List Int)
    (h : (lookupAssoc ds v).isSome = true) :
    lookupDomain (setDomain ds v d) v = d := by
  cases hl : lookupAssoc ds v with
  | none => rw [hl] at h; simp at h
  | some b => simp [lookupDomain, lookupAssoc_setDomain, hl]

theorem lookupDomain_setDomain_ne (ds : DomainMap) (v w : Variable) (d : List Int)
    (h : w ≠ v) :
    lookupDomain (setDomain ds v d) w = lookupDomain ds w := by
  rw [lookupDomain, lookupDomain, lookupAssoc_setDomain]
  cases lookupAssoc ds w <;> simp [h]

theorem isSome_setDomain (ds : DomainMap) (v w : Variable) (d : List Int) :
    (lookupAssoc (setDomain ds v d) w).isSome = (lookupAssoc ds w).isSome := by
  rw [lookupAssoc_setDomain]
  cases lookupAssoc ds w <;> rfl

theorem totalSize_cons (vd : Variable × List Int) (l : DomainMap) :
    totalSize (vd :: l) = vd.2.length + totalSize l := rfl

theorem totalSize_map_le (F : Variable × List Int → Variable × List Int)
    (hsub : ∀ vd, (F vd).2.length ≤ vd.2.length) :
    ∀ l : DomainMap, totalSize (l.map F) ≤ totalSize l := by
  intro l
  induction l with
  | nil => exact Nat.le_refl _
  | cons hd tl ih =>
      rw [List.map_cons, totalSize_cons, totalSize_cons]
      exact Nat.add_le_add (hsub hd) ih

theorem totalSize_map_lt (F : Variable × List Int → Variable × List Int)
    (hkey : ∀ vd, (F vd).1 = vd.1) (hsub : ∀ vd, (F vd).2.Sublist vd.2) :
    ∀ l : DomainMap, l.map F ≠ l → totalSize (l.map F) < totalSize l := by
  intro l
  induction l with
  | nil => intro h; exact absurd rfl h
  | cons hd tl ih =>
      intro h
      rw [List.map_cons, totalSize_cons, totalSize_cons]
      by_cases hhd : F hd = hd
      · have htl : tl.map F ≠ tl := by
          intro he
          exact h (by rw [List.map_cons, hhd, he])
        have := ih htl
        have hle := (hsub hd).length_le
        omega
      · have hlen : (F hd).2.length < hd.2.length := by
          have hle := (hsub hd).length_le
          rcases Nat.lt_or_ge (F hd).2.length hd.2.length with hlt | hge
          · exact hlt
          · exact absurd (Prod.ext (hkey hd) ((hsub hd).eq_of_length (Nat.le_antisymm hle hge)))
              hhd
        have hle2 : totalSize (tl.map F) ≤ totalSize tl :=
          totalSize_map_le F (fun vd => (hsub vd).length_le) tl
        omega

theorem step_totalSize_lt (cs : List Constraint) (ds : DomainMap) (h : step cs ds ≠ ds) :
    totalSize (step cs ds) < totalSize ds :=
  totalSize_map_lt (fun vd => (vd.1, vd.2.filter (fun x => supportedAll cs ds vd.1 x)))
    (fun _ => rfl) (fun vd => List.filter_sublist vd.2) ds h

theorem propagateFuel_of_fixpoint (cs : List Constraint) (n : Nat) (ds : DomainMap)
    (h : step cs ds = ds) : propagateFuel cs n ds = ds := by
  cases n with
  | zero => rfl
  | succ n => simp [propagateFuel, h]

theorem propagateFuel_fixpoint (cs : List Constraint) :
    ∀ (n : Nat) (ds : DomainMap), totalSize ds < n →
      step cs (propagateFuel cs n ds) = propagateFuel cs n ds := by
  intro n
  induction n with
  | zero => intro ds h; exact absurd h (Nat.not_lt_zero _)
  | succ n ih =>
      intro ds h
      by_cases hfix : step cs ds = ds
      · simp [propagateFuel, hfix]
      · have hlt := step_totalSize_lt cs ds hfix
        simp only [propagateFuel, if_neg hfix]
        exact ih (step cs ds) (by omega)

theorem propagate_fixpoint (cs : List Constraint) (ds : DomainMap) :
    step cs (propagate cs ds) = propagate cs ds :=
  propagateFuel_fixpoint cs _ ds (Nat.lt_succ_self _)

theorem step_nil (ds : DomainMap) : step [] ds = ds := by
  have hfil : ∀ vd : Variable × List Int,
      (vd.1, vd.2.filter (fun x => supportedAll [] ds vd.1 x)) = vd := by
    intro vd
    have : vd.2.filter (fun x => supportedAll [] ds vd.1 x) = vd.2 :=
      List.filter_eq_self.mpr (fun a _ => rfl)
    rw [this]
  calc step [] ds
      = ds.map (fun vd => (vd.1, vd.2.filter (fun x => supportedAll [] ds vd.1 x))) := rfl
    _ = ds.map id := List.map_congr_left (fun vd _ => hfil vd)
    _ = ds := List.map_id ds

theorem propagate_nil (ds : DomainMap) : propagate [] ds = ds :=
  propagateFuel_of_fixpoint _ _ _ (step_nil ds)

theorem fixpoint_supported (cs : List Constraint) (ds : DomainMap)
    (hfix : step cs ds = ds) (v : Variable) (x : Int)
    (hx : x ∈ lookupDomain ds v) (c : Constraint) (hc : c ∈ cs) :
    valueSupported ds c v x = true := by
  cases hl : lookupAssoc ds v with
  | none =>
      rw [lookupDomain, hl] at hx
      simp at hx
  | some d =>
      have hstep := lookupAssoc_step cs ds v
      rw [hfix, hl] at hstep
      have hfil : d.filter (fun y => supportedAll cs ds v y) = d := by
        have h2 : some d = some (d.filter (fun y => supportedAll cs ds v y)) := hstep
        exact (Option.some.inj h2).symm
      have hmem : x ∈ d := by
        rw [lookupDomain, hl] at hx
        simpa using hx
      have hsup := (List.filter_eq_self.mp hfil) x hmem
      rw [supportedAll] at hsup
      exact List.all_eq_true.mp hsup c hc

theorem lookupDomain_step_empty (cs : List Constraint) (ds : DomainMap) (v : Variable)
    (h : lookupDomain ds v = []) : lookupDomain (step cs ds) v = [] := by
  rw [lookupDomain, lookupAssoc_step]
  cases hl : lookupAssoc ds v with
  | none => rfl
  | some d =>
      have hd : d = [] := by
        rw [lookupDomain, hl] at h
        simpa using h
      subst hd
      rfl

theorem lookupDomain_propagateFuel_empty (cs : List Constraint) :
    ∀ (n : Nat) (ds : DomainMap) (v : Variable), lookupDomain ds v = [] →
      lookupDomain (propagateFuel cs n ds) v = [] := by
  intro n
  induction n with
  | zero => intro ds v h; exact h
  | succ n ih =>
      intro ds v h
      by_cases hfix : step cs ds = ds
      · simpa [propagateFuel, hfix] using h
      · simp only [propagateFuel, if_neg hfix]
        exact ih (step cs ds) v (lookupDomain_step_empty cs ds v h)

theorem lookupDomain_propagate_empty (cs : List Constraint) (ds : DomainMap) (v : Variable)
    (h : lookupDomain ds v = []) : lookupDomain (propagate cs ds) v = [] :=
  lookupDomain_propagateFuel_empty cs _ ds v h

theorem anyEmpty_true_of_mem (decl : List Variable) (ds : DomainMap) (v : Variable)
    (hv : v ∈ decl) (h : lookupDomain ds v = []) : anyEmpty decl ds = true :=
  List.any_eq_true.mpr ⟨v, hv, decide_eq_true h⟩

theorem anyEmpty_false_of (decl : List Variable) (ds : DomainMap)
    (h : ∀ v ∈ decl, lookupDomain ds v ≠ []) : anyEmpty decl ds = false := by
  cases han : anyEmpty decl ds with
  | false => rfl
  | true =>
      exfalso
      obtain ⟨v, hv, hp⟩ := List.any_eq_true.mp han
      exact h v hv (of_decide_eq_true hp)

theorem allSingleton_of (decl : List Variable) (ds : DomainMap)
    (h : ∀ v ∈ decl, (lookupDomain ds v).length = 1) : allSingleton decl ds = true :=
  List.all_eq_true.mpr (fun v hv => decide_eq_true (h v hv))

theorem allSingleton_mp (decl : List Variable) (ds : DomainMap)
    (h : allSingleton decl ds = true) : ∀ v ∈ decl, (lookupDomain ds v).length = 1 :=
  fun v hv => of_decide_eq_true (List.all_eq_true.mp h v hv)

theorem foldl_choice_mem (f : Variable → Variable → Variable)
    (hf : ∀ b w, f b w = b ∨ f b w = w) :
    ∀ (rest : List Variable) (v : Variable), rest.foldl f v ∈ v :: rest := by
  intro rest
  induction rest with
  | nil => intro v; simp
  | cons w t ih =>
      intro v
      rw [List.foldl_cons]
      rcases hf v w with h | h <;> rw [h]
      · rcases List.mem_cons.mp (ih v) with h1 | h1 <;> simp [h1]
      · rcases List.mem_cons.mp (ih w) with h1 | h1 <;> simp [h1]

theorem selectMRV_cons (u : Variable) (rest : List Variable) (ds : DomainMap) :
    ∃ v0, selectMRV (u :: rest) ds = some v0 ∧ v0 ∈ u :: rest := by
  refine ⟨_, rfl, ?_⟩
  apply foldl_choice_mem
  intro b w
  by_cases hbw : (lookupDomain ds w).length < (lookupDomain ds b).length
  · right; simp [hbw]
  · left; simp [hbw]

theorem construct_eq_ok (decl : List Variable) (doms : DomainMap) (cs : List Constraint)
    (h : wellFormed decl doms cs = true) :
    construct decl doms cs =
      Except.ok { decls := decl, domains := doms, constraints := cs } := by
  rw [wellFormed, Bool.and_eq_true] at h
  obtain ⟨h1, h2⟩ := h
  have hs : scopeViolation decl cs = none := by
    rw [scopeViolation, List.findSome?_eq_none_iff]
    intro c hc
    rw [List.find?_eq_none]
    intro v hv
    have hdec := List.all_eq_true.mp (List.all_eq_true.mp h1 c hc) v hv
    simp [hdec]
  have hd : domainViolation decl doms = none := by
    rw [domainViolation, List.find?_eq_none]
    intro v hv
    have hsome := List.all_eq_true.mp h2 v hv
    intro hcon
    rw [Option.isNone_iff_eq_none] at hcon
    rw [hcon] at hsome
    simp at hsome
  unfold construct
  rw [hs, hd]

theorem wellFormed_of_construct_ok (decl : List Variable) (doms : DomainMap)
    (cs : List Constraint) (h : ∃ p, construct decl doms cs = Except.ok p) :
    wellFormed decl doms cs = true := by
  obtain ⟨p, hp⟩ := h
  unfold construct at hp
  cases hs : scopeViolation decl cs with
  | some v => rw [hs] at hp; exact Except.noConfusion hp
  | none =>
      rw [hs] at hp
      cases hd : domainViolation decl doms with
      | some v => rw [hd] at hp; exact Except.noConfusion hp
      | none =>
          rw [wellFormed, Bool.and_eq_true]
          constructor
          · rw [List.all_eq_true]
            intro c hc
            rw [List.all_eq_true]
            intro v hv
            have hnone := List.findSome?_eq_none_iff.mp (by rw [← scopeViolation]; exact hs) c hc
            have := List.find?_eq_none.mp hnone v hv
            simpa using this
          · rw [List.all_eq_true]
            intro v hv
            have := List.find?_eq_none.mp (by rw [← domainViolation]; exact hd) v hv
            cases hl : lookupAssoc doms v with
            | none => rw [Option.isNone_iff_eq_none.symm] at hl; exact absurd hl this
            | some b => rfl

theorem solve_ok_of_wellFormed (p : Problem)
    (h : wellFormed p.decls p.domains p.constraints = true) :
    ∃ r, solve p = Except.ok r := by
  have hc := construct_eq_ok p.decls p.domains p.constraints h
  by_cases h1 : anyEmpty p.decls (propagate p.constraints p.domains) = true
  · exact ⟨SolverResult.noSolution, by simp [solve, hc, h1]⟩
  · by_cases h2 : allSingleton p.decls (propagate p.constraints p.domains) = true
    · exact ⟨SolverResult.solved (inducedAssignment p.decls (propagate p.constraints p.domains)),
        by simp [solve, hc, h1, h2]⟩
    · cases hsa : searchAux p.constraints p.decls (p.decls.length + 1) p.decls
          (propagate p.constraints p.domains) with
      | some a =>
          exact ⟨SolverResult.solved a, by simp [solve, hc, h1, h2, hsa]⟩
      | none =>
          exact ⟨SolverResult.noSolution, by simp [solve, hc, h1, h2, hsa]⟩

theorem searchAux_success (decl : List Variable) :
    ∀ (fuel : Nat) (unassigned : List Variable) (ds : DomainMap),
      unassigned.length < fuel →
      unassigned ⊆ decl →
      (∀ v ∈ decl, (lookupAssoc ds v).isSome = true) →
      (∀ v ∈ decl, lookupDomain ds v ≠ []) →
      (∀ v ∈ decl, v ∉ unassigned → (lookupDomain ds v).length = 1) →
      ∃ a, searchAux [] decl fuel unassigned ds = some a := by
  intro fuel
  induction fuel with
  | zero => intro unassigned ds hlen hsub hsome hne hsing; exact absurd hlen (Nat.not_lt_zero _)
  | succ n ih =>
      intro unassigned ds hlen hsub hsome hne hsing
      by_cases hall : allSingleton decl ds = true
      · exact ⟨inducedAssignment decl ds, by simp [searchAux, hall]⟩
      · have hallF : allSingleton decl ds = false := Bool.eq_false_iff.mpr hall
        cases unassigned with
        | nil =>
            exact absurd (allSingleton_of decl ds (fun v hv => hsing v hv (by simp))) hall
        | cons u rest =>
            obtain ⟨v0, hsel, hmem⟩ := selectMRV_cons u rest ds
            have hv0decl : v0 ∈ decl := hsub hmem
            have hne0 : lookupDomain ds v0 ≠ [] := hne v0 hv0decl
            obtain ⟨x0, tail, hd0⟩ : ∃ x0 tail, lookupDomain ds v0 = x0 :: tail := by
              cases hcand : lookupDomain ds v0 with
              | nil => exact absurd hcand hne0
              | cons a b => exact ⟨a, b, rfl⟩
            have hprop : propagate [] (setDomain ds v0 [x0]) = setDomain ds v0 [x0] :=
              propagate_nil _
            have hlook0 : lookupDomain (setDomain ds v0 [x0]) v0 = [x0] :=
              lookupDomain_setDomain_self ds v0 [x0] (hsome v0 hv0decl)
            have hnonempty2 : ∀ v ∈ decl, lookupDomain (setDomain ds v0 [x0]) v ≠ [] := by
              intro v hv
              by_cases hvv : v = v0
              · subst hvv; rw [hlook0]; simp
              · rw [lookupDomain_setDomain_ne ds v0 v [x0] hvv]
                exact hne v hv
            have hanyE : anyEmpty decl (setDomain ds v0 [x0]) = false :=
              anyEmpty_false_of decl _ hnonempty2
            have hrec : ∃ a,
                searchAux [] decl n ((u :: rest).erase v0) (setDomain ds v0 [x0]) = some a := by
              apply ih
              · have hpos : 0 < (u :: rest).length := by simp
                rw [List.length_erase_of_mem hmem]
                omega
              · exact fun w hw => hsub (List.erase_subset _ _ hw)
              · intro v hv
                rw [isSome_setDomain]
                exact hsome v hv
              · exact hnonempty2
              · intro v hv hvnot
                by_cases hvv : v = v0
                · subst hvv; rw [hlook0]; rfl
                · rw [lookupDomain_setDomain_ne ds v0 v [x0] hvv]
                  apply hsing v hv
                  intro hmem2
                  exact hvnot ((List.mem_erase_of_ne hvv).mpr hmem2)
            obtain ⟨a, ha⟩ := hrec
            refine ⟨a, ?_⟩
            simp only [searchAux, hallF, hsel, hd0, List.findSome?_cons, hprop, hanyE, ha]
            simp

/-! Claim theorems. -/

/-- C1: for every Csp value, over any domain and constraint types, the
`backtrack` function of csp.rs returns the empty Assignment — the source
never implements backtracking. -/
theorem backtrack_empty {D C : Type} [Domain D] (csp : Csp D C) :
    backtrack csp = ([] : Assignment D) := rfl

/-- C2: on the end-to-end example Problem (variables x and y over 0..10
with the binary constraint y == x * x), the modelled `solve` returns
Solved with an assignment in which the value of y equals the square of the
value of x. -/
theorem solve_example_end_to_end :
    ∃ (a : List (Variable × Int)) (vx vy : Int),
      solve exampleProblem = Except.ok (SolverResult.solved a) ∧
      lookupAssoc a "x" = some vx ∧ lookupAssoc a "y" = some vy ∧ vy = vx * vx :=
  ⟨[("x", 0), ("y", 0)], 0, 0, rfl, rfl, rfl, rfl⟩

/-- C3: Problem construction fails with a ConfigurationError exactly when
some constraint references an undeclared variable or some declared
variable lacks a domain entry; a well-formed construction succeeds and
preserves the declaration, and a well-formed Problem never raises an
error later — `solve` always returns an ok result on it. -/
theorem construct_validation (decl : List Variable) (doms : DomainMap) (cs : List Constraint) :
    ((∃ p, construct decl doms cs = Except.ok p) ↔ wellFormed decl doms cs = true) ∧
    (wellFormed decl doms cs = true →
      construct decl doms cs =
        Except.ok { decls := decl, domains := doms, constraints := cs }) ∧
    (wellFormed decl doms cs = false → ∃ e, construct decl doms cs = Except.error e) ∧
    (∀ p : Problem, wellFormed p.decls p.domains p.constraints = true →
      ∃ r, solve p = Except.ok r) := by
  refine ⟨⟨wellFormed_of_construct_ok decl doms cs,
      fun h => ⟨_, construct_eq_ok decl doms cs h⟩⟩,
    fun h => construct_eq_ok decl doms cs h, ?_, fun p hp => solve_ok_of_wellFormed p hp⟩
  intro h
  cases hc : construct decl doms cs with
  | error e => exact ⟨e, rfl⟩
  | ok p =>
      have hw := wellFormed_of_construct_ok decl doms cs ⟨p, hc⟩
      rw [hw] at h
      exact Bool.noConfusion h

/-- Witness for C3: a concrete well-formed construction succeeds with the
declared fields. -/
theorem construct_validation_witness :
    construct ["x"] [("x", [1])] [] =
      Except.ok { decls := ["x"], domains := [("x", [1])], constraints := [] } :=
  (construct_validation ["x"] [("x", [1])] []).2.1 (by decide)

/-- C4 counterexample: on the constraint-free Problem with the
two-candidate domain {0, 1}, `solve` returns Solved, not Reduced. -/
theorem solve_no_constraints_counterexample :
    solve noConstraintProblem = Except.ok (SolverResult.solved [("x", 0)]) ∧
    resultIsReduced (solve noConstraintProblem) = false :=
  ⟨rfl, rfl⟩

/-- C4 (amended): for a well-formed Problem with an empty constraint list,
the Propagator leaves the domains unchanged, and `solve` returns Solved —
not Reduced — whenever every declared domain is nonempty; in particular
when every declared domain is already a singleton it returns Solved with
the induced assignment. -/
theorem solve_no_constraints (p : Problem)
    (hc : p.constraints = [])
    (hok : wellFormed p.decls p.domains p.constraints = true) :
    propagate p.constraints p.domains = p.domains ∧
    ((∀ v ∈ p.decls, lookupDomain p.domains v ≠ []) →
      ∃ a, solve p = Except.ok (SolverResult.solved a)) ∧
    (allSingleton p.decls p.domains = true →
      solve p = Except.ok (SolverResult.solved (inducedAssignment p.decls p.domains))) := by
  have hprop : propagate p.constraints p.domains = p.domains := by
    rw [hc]; exact propagate_nil _
  have hcon := construct_eq_ok p.decls p.domains p.constraints hok
  refine ⟨hprop, ?_, ?_⟩
  · intro hne
    have hanyE : anyEmpty p.decls p.domains = false := anyEmpty_false_of _ _ hne
    by_cases hall : allSingleton p.decls p.domains = true
    · exact ⟨inducedAssignment p.decls p.domains, by simp [solve, hcon, hprop, hanyE, hall]⟩
    · have hallF : allSingleton p.decls p.domains = false := Bool.eq_false_iff.mpr hall
      have hsome : ∀ v ∈ p.decls, (lookupAssoc p.domains v).isSome = true := by
        rw [wellFormed, Bool.and_eq_true] at hok
        exact fun v hv => List.all_eq_true.mp hok.2 v hv
      obtain ⟨a, ha⟩ := searchAux_success p.decls (p.decls.length + 1) p.decls p.domains
        (Nat.lt_succ_self _) (fun x hx => hx) hsome hne
        (fun v hv hvnot => absurd hv hvnot)
      have ha2 : searchAux p.constraints p.decls (p.decls.length + 1) p.decls p.domains
          = some a := by rw [hc]; exact ha
      exact ⟨a, by simp [solve, hcon, hprop, hanyE, hallF, ha2]⟩
  · intro hall
    have hne : ∀ v ∈ p.decls, lookupDomain p.domains v ≠ [] := by
      intro v hv hnil
      have hone := allSingleton_mp p.decls p.domains hall v hv
      rw [hnil] at hone
      exact Nat.noConfusion hone
    have hanyE : anyEmpty p.decls p.domains = false := anyEmpty_false_of _ _ hne
    simp [solve, hcon, hprop, hanyE, hall]

/-- Witness for C4: the amended theorem applied to a concrete
constraint-free Problem with a two-candidate domain. -/
theorem solve_no_constraints_witness :
    ∃ a, solve noConstraintProblem2 = Except.ok (SolverResult.solved a) :=
  (solve_no_constraints noConstraintProblem2 rfl (by decide)).2.1 (by decide)

/-- C5: the Propagator is idempotent — for every constraint list and every
domain state, running `propagate` on its own output removes nothing
further and yields exactly the same domains. -/
theorem propagate_idempotent (cs : List Constraint) (ds : DomainMap) :
    propagate cs (propagate cs ds) = propagate cs ds :=
  propagateFuel_of_fixpoint cs _ _ (propagate_fixpoint cs ds)

/-- C6: a well-formed Problem in which some variable has the singleton
domain {v1} and carries both an Equality constraint to v1 and an
Inequality constraint to the same v1 solves to NoSolution. -/
theorem solve_contradiction_detection (p : Problem) (v : Variable) (v1 : Int)
    (hok : wellFormed p.decls p.domains p.constraints = true)
    (hv : v ∈ p.decls)
    (hdom : lookupDomain p.domains v = [v1])
    (heq : Constraint.equality v v1 ∈ p.constraints)
    (hne : Constraint.inequality v v1 ∈ p.constraints) :
    solve p = Except.ok SolverResult.noSolution := by
  have hcon := construct_eq_ok p.decls p.domains p.constraints hok
  have hfix := propagate_fixpoint p.constraints p.domains
  have hempty : lookupDomain (propagate p.constraints p.domains) v = [] := by
    cases hl : lookupDomain (propagate p.constraints p.domains) v with
    | nil => rfl
    | cons x t =>
        exfalso
        have hx : x ∈ lookupDomain (propagate p.constraints p.domains) v := by
          rw [hl]; exact List.mem_cons_self x t
        have h1 := fixpoint_supported p.constraints _ hfix v x hx _ heq
        have h2 := fixpoint_supported p.constraints _ hfix v x hx _ hne
        simp only [valueSupported] at h1 h2
        simp at h1 h2
        exact h2 h1
  have hanyT : anyEmpty p.decls (propagate p.constraints p.domains) = true :=
    anyEmpty_true_of_mem _ _ v hv hempty
  simp [solve, hcon, hanyT]

/-- Witness for C6: the Problem with domain {5} and both an Equality and
an Inequality constraint to 5 concretely solves to NoSolution. -/
theorem solve_contradiction_witness :
    solve contradictionProblem = Except.ok SolverResult.noSolution :=
  solve_contradiction_detection contradictionProblem "v" 5 (by decide) (by decide) rfl
    (List.Mem.head _) (List.Mem.tail _ (List.Mem.head _))

/-- C7: a well-formed Problem with an empty declared domain solves to
NoSolution, and the Search Engine stage of the Driver is never reached
for it. -/
theorem solve_empty_domain_short_circuit (p : Problem)
    (hok : wellFormed p.decls p.domains p.constraints = true)
    (v : Variable) (hv : v ∈ p.decls)
    (hempty : lookupDomain p.domains v = []) :
    solve p = Except.ok SolverResult.noSolution ∧ searchInvoked p = false := by
  have hcon := construct_eq_ok p.decls p.domains p.constraints hok
  have hprop : lookupDomain (propagate p.constraints p.domains) v = [] :=
    lookupDomain_propagate_empty p.constraints p.domains v hempty
  have hanyT : anyEmpty p.decls (propagate p.constraints p.domains) = true :=
    anyEmpty_true_of_mem _ _ v hv hprop
  exact ⟨by simp [solve, hcon, hanyT], by simp [searchInvoked, hcon, hanyT]⟩

/-- Witness for C7: the Problem whose single variable has the empty domain
concretely short-circuits to NoSolution without invoking search. -/
theorem solve_empty_domain_witness :
    solve emptyDomainProblem = Except.ok SolverResult.noSolution ∧
    searchInvoked emptyDomainProblem = false :=
  solve_empty_domain_short_circuit emptyDomainProblem (by decide) "a" (by decide) rfl

/-- C8: every Domain impl of csp.rs carries an integer value type — the
i32 range maps to i32, and the f32 and f64 ranges map to the integer types
i32 and i64 respectively. -/
theorem domain_value_types_integer :
    (∀ r, (rangeValueTy r).isIntegerTy = true) ∧
    rangeValueTy RangeImpl.overI32 = NumTy.i32 ∧
    rangeValueTy RangeImpl.overF32 = NumTy.i32 ∧
    rangeValueTy RangeImpl.overF64 = NumTy.i64 := by
  refine ⟨fun r => ?_, rfl, rfl, rfl⟩
  cases r <;> rfl

/-- C9: the NIF `add` of lib.rs returns Ok of the pair (:ok atom, a + b)
with exact wrapping 64-bit signed addition whenever both arguments decode
as i64, and it returns a decode error exactly when some argument fails to
decode. -/
theorem add_decodes_and_sums (a b : NifTerm) :
    (∀ x y : Int, decodeI64 a = Except.ok x → decodeI64 b = Except.ok y →
      add a b = Except.ok (ElixirAtom.ok, i64Wrap (x + y))) ∧
    ((∃ e, add a b = Except.error e) ↔
      (∃ e, decodeI64 a = Except.error e) ∨ (∃ e, decodeI64 b = Except.error e)) := by
  constructor
  · intro x y hx hy
    simp [add, hx, hy]
  · cases ha : decodeI64 a with
    | error e =>
        simp [add, ha]
        exact fun x _ => ⟨e, trivial⟩
    | ok x =>
        cases hb : decodeI64 b with
        | error e => simp [add, ha, hb]
        | ok y => simp [add, ha, hb]

/-- Witness for C9: adding the decoded integers 2 and 3 yields Ok with the
:ok atom and the wrapped sum. -/
theorem add_decodes_and_sums_witness :
    add (NifTerm.int 2) (NifTerm.int 3) = Except.ok (ElixirAtom.ok, i64Wrap (2 + 3)) :=
  (add_decodes_and_sums (NifTerm.int 2) (NifTerm.int 3)).1 2 3 rfl rfl

/-- C10: for every line read from standard input, `main` of bin.rs prints
the echoed line, constructs exactly the example CSP value, and returns
Ok(()); its effects contain no assignment and no solver result, and
`backtrack` is never applied. -/
theorem binMain_behavior (input : String) :
    binMain input =
      { printed := "Input = " ++ input ++ "\n"
      , csp := exampleCspValue
      , result := Except.ok () } := rfl

end Csp
